import Mathlib

/-
Verification of the spaced-repetition scheduler of the langcat repository.

The scheduler is duplicated across two storage backends:
  - `FlashcardService` in src/lib/database.ts (remote store), and
  - `UnifiedProgressService` in src/services/progress-service.ts (local store).

Shallow embedding conventions:
  - JavaScript numbers carrying the ease factor are modelled as rationals;
    the SM-2 arithmetic appearing in this code is exact decimal arithmetic
    (0.1 = 1/10, 0.08 = 2/25, 0.02 = 1/50, 2.5 = 5/2, 1.3 = 13/10).
  - `interval_days`, `repetitions` and the quality rating are integers.
  - Timestamps (`Date.getTime()` values and their ISO string encodings) are
    integer milliseconds since the epoch.
  - `Math.round` rounds half toward positive infinity.
  - The persisted per-learner review set is an association list from the
    vocabulary id to its review state; the storage upsert keyed by
    (user_id, vocabulary_id) replaces the entry for an existing key and
    inserts otherwise.
-/

attribute [local semireducible] Rat.mul Rat.add Rat.sub Rat.inv

namespace LangCat

/-- The persisted review state of one (learner, vocabulary item) pair:
`ease_factor` / `easeFactor`, `interval_days` / `intervalDays`, `repetitions`,
`last_reviewed_at` / `lastReviewedAt`, `next_review_at` / `nextReviewAt`
(field names as in the two backends of the source). -/
structure SM2State where
  easeFactor : ℚ
  intervalDays : ℤ
  repetitions : ℤ
  lastReviewedAt : ℤ
  nextReviewAt : ℤ
deriving DecidableEq

/-- Milliseconds in one day, as in `intervalDays * 24 * 60 * 60 * 1000`. -/
def msPerDay : ℤ := 24 * 60 * 60 * 1000

/-- JavaScript `Math.max` on two rationals. -/
def jsMax (a b : ℚ) : ℚ := if a ≤ b then b else a

/-- JavaScript `Math.round`: round to the nearest integer, halves toward
positive infinity. -/
def jsRound (x : ℚ) : ℤ := (x + 1/2).floor

/-- The review set of one learner, as stored by either backend: an
association list keyed by the vocabulary id. -/
abbrev Store := List (String × SM2State)

/-- Storage read: the review state recorded for a vocabulary id, if any. -/
def lookupState (id : String) : Store → Option SM2State
  | [] => none
  | (k, v) :: rest => if k = id then some v else lookupState id rest

/-- Storage write with last-write-wins semantics keyed by the vocabulary id:
replaces the entry for an existing key and inserts otherwise (the remote
upsert with onConflict user_id,vocabulary_id, and the local map set). -/
def upsertState (id : String) (s : SM2State) : Store → Store
  | [] => [(id, s)]
  | (k, v) :: rest => if k = id then (id, s) :: rest else (k, v) :: upsertState id s rest

/-- The freshly initialized review state both backends create:
ease factor 2.5, interval 0, repetitions 0, last reviewed and next review
both set to the creation time (due immediately). -/
def initState (now : ℤ) : SM2State :=
  { easeFactor := 5/2, intervalDays := 0, repetitions := 0,
    lastReviewedAt := now, nextReviewAt := now }

namespace FlashcardService

/-- The SM-2 computation of `FlashcardService.updateFlashcard`
(src/lib/database.ts): reads the current state (the JavaScript
`current?.ease_factor || 2.5` falls back to 2.5 when the row is absent, and
also when the stored ease factor is the falsy number 0; `|| 0` on
`repetitions` and `interval_days` is the identity on the stored value),
updates the ease with the SM-2 formula floored at 1.3, branches on
quality < 3, and stamps `lastReviewedAt = now`,
`nextReviewAt = now + intervalDays` days. -/
def updateFlashcardState (current : Option SM2State) (quality now : ℤ) : SM2State :=
  let easeFactor0 : ℚ :=
    match current with
    | none => 5/2
    | some s => if s.easeFactor = 0 then 5/2 else s.easeFactor
  let repetitions0 : ℤ := match current with | none => 0 | some s => s.repetitions
  let intervalDays0 : ℤ := match current with | none => 0 | some s => s.intervalDays
  let easeFactor : ℚ :=
    jsMax (13/10)
      (easeFactor0 + (1/10 - ((5 : ℚ) - (quality : ℚ)) * (2/25 + ((5 : ℚ) - (quality : ℚ)) * (1/50))))
  if quality < 3 then
    { easeFactor := easeFactor, intervalDays := 1, repetitions := 0,
      lastReviewedAt := now, nextReviewAt := now + 1 * msPerDay }
  else
    let repetitions : ℤ := repetitions0 + 1
    let intervalDays : ℤ :=
      if repetitions = 1 then 1
      else if repetitions = 2 then 6
      else jsRound ((intervalDays0 : ℚ) * easeFactor)
    { easeFactor := easeFactor, intervalDays := intervalDays, repetitions := repetitions,
      lastReviewedAt := now, nextReviewAt := now + intervalDays * msPerDay }

/-- `FlashcardService.updateFlashcard` as a whole: read the current row for
the item (absent rows yield the defaults), compute the SM-2 update, and
upsert the result keyed by (user, vocabulary id). -/
def updateFlashcard (st : Store) (id : String) (quality now : ℤ) : Store :=
  upsertState id (updateFlashcardState (lookupState id st) quality now) st

/-- `FlashcardService.ensureFlashcardsExist` (src/lib/database.ts): reads the
existing rows for the given vocabulary ids, keeps only the ids without one,
and inserts fresh default rows for exactly those. -/
def ensureFlashcardsExist (ids : List String) (now : ℤ) (st : Store) : Store :=
  st ++ (ids.filter (fun id => (lookupState id st).isNone)).map (fun id => (id, initState now))

/-- `FlashcardService.initializeFlashcardsForLesson` (src/lib/database.ts):
builds a fresh default row for every vocabulary id of the lesson — with no
existence check — and bulk-upserts them. Modelled from the spec: the write
primitive is the upsertState of section 6, last-write-wins keyed by
(learner, item); the database schema and hence the exact conflict target of
this bulk upsert is not part of the repository. -/
def initializeFlashcardsForLesson (ids : List String) (now : ℤ) (st : Store) : Store :=
  ids.foldl (fun acc id => upsertState id (initState now) acc) st

/-- Insertion step of the ordering the due query applies: keeps the list
sorted by next_review_at ascending. Any stable sort has the same multiset of
elements; the theorems below only depend on membership and length. -/
def insertByNextReview (s : SM2State) : List SM2State → List SM2State
  | [] => [s]
  | t :: rest =>
    if s.nextReviewAt ≤ t.nextReviewAt then s :: t :: rest else t :: insertByNextReview s rest

/-- The ORDER BY next_review_at of the due query. -/
def orderByNextReview : List SM2State → List SM2State
  | [] => []
  | s :: rest => insertByNextReview s (orderByNextReview rest)

/-- The default of the `limit` parameter of getDueFlashcards. -/
def defaultLimit : ℕ := 20

/-- `FlashcardService.getDueFlashcards` (src/lib/database.ts): selects the
rows of the user with next_review_at at most now, ordered by next_review_at,
limited to `limit` rows (default 20). -/
def getDueFlashcards (states : List SM2State) (now : ℤ) (limit : ℕ) : List SM2State :=
  (orderByNextReview (states.filter (fun f => f.nextReviewAt ≤ now))).take limit

end FlashcardService

namespace UnifiedProgressService

/-- The SM-2 computation of `UnifiedProgressService.updateFlashcard`
(src/services/progress-service.ts), translated independently from its own
source: `current?.easeFactor || 2.5` falls back to 2.5 when the entry is
absent or the stored ease factor is the falsy 0; same SM-2 formula, 1.3
floor, quality < 3 branch, and timestamps as the remote copy. -/
def updateFlashcardState (current : Option SM2State) (quality now : ℤ) : SM2State :=
  let easeFactor0 : ℚ :=
    match current with
    | none => 5/2
    | some s => if s.easeFactor = 0 then 5/2 else s.easeFactor
  let repetitions0 : ℤ := match current with | none => 0 | some s => s.repetitions
  let intervalDays0 : ℤ := match current with | none => 0 | some s => s.intervalDays
  let easeFactor : ℚ :=
    jsMax (13/10)
      (easeFactor0 + (1/10 - ((5 : ℚ) - (quality : ℚ)) * (2/25 + ((5 : ℚ) - (quality : ℚ)) * (1/50))))
  if quality < 3 then
    { easeFactor := easeFactor, intervalDays := 1, repetitions := 0,
      lastReviewedAt := now, nextReviewAt := now + 1 * msPerDay }
  else
    let repetitions : ℤ := repetitions0 + 1
    let intervalDays : ℤ :=
      if repetitions = 1 then 1
      else if repetitions = 2 then 6
      else jsRound ((intervalDays0 : ℚ) * easeFactor)
    { easeFactor := easeFactor, intervalDays := intervalDays, repetitions := repetitions,
      lastReviewedAt := now, nextReviewAt := now + intervalDays * msPerDay }

/-- `UnifiedProgressService.updateFlashcard` as a whole: get the entry from
the local map, compute the SM-2 update, and set the entry. -/
def updateFlashcard (st : Store) (id : String) (quality now : ℤ) : Store :=
  upsertState id (updateFlashcardState (lookupState id st) quality now) st

/-- `UnifiedProgressService.initializeFlashcards`
(src/services/progress-service.ts): walks the vocabulary ids and sets a
fresh default entry for each id not already present; ids with an existing
entry are left untouched. -/
def initializeFlashcards (ids : List String) (now : ℤ) (st : Store) : Store :=
  ids.foldl
    (fun acc id =>
      if (lookupState id acc).isSome then acc else upsertState id (initState now) acc) st

end UnifiedProgressService

/-- The statistics record both getFlashcardStats return: total, due, mature
and new counts. -/
structure FlashcardStats where
  total : ℕ
  due : ℕ
  mature : ℕ
  new : ℕ
deriving DecidableEq

namespace FlashcardService

/-- `FlashcardService.getFlashcardStats` (src/lib/database.ts): reads all
rows of the user and reports total = number of rows, due = rows with
next_review_at at most now, mature = rows with repetitions at least 3, and
new = total minus mature. -/
def getFlashcardStats (states : List SM2State) (now : ℤ) : FlashcardStats :=
  { total := states.length
    due := (states.filter (fun f => f.nextReviewAt ≤ now)).length
    mature := (states.filter (fun f => 3 ≤ f.repetitions)).length
    new := states.length - (states.filter (fun f => 3 ≤ f.repetitions)).length }

end FlashcardService

namespace UnifiedProgressService

/-- `UnifiedProgressService.getFlashcardStats`
(src/services/progress-service.ts), translated independently: same four
counts computed over the locally stored entries. -/
def getFlashcardStats (states : List SM2State) (now : ℤ) : FlashcardStats :=
  { total := states.length
    due := (states.filter (fun f => f.nextReviewAt ≤ now)).length
    mature := (states.filter (fun f => 3 ≤ f.repetitions)).length
    new := states.length - (states.filter (fun f => 3 ≤ f.repetitions)).length }

end UnifiedProgressService

/-- The accuracy statistic of the review screen (src/app/(tabs)/review.tsx,
loadDecks): reviewedCards are the states with repetitions above 0,
successfulCards those among them with repetitions at least 1, and accuracy is
round(successful / reviewed times 100), or 0 when reviewedCards is empty. -/
def deckAccuracy (flashcardProgress : List SM2State) : ℤ :=
  let reviewedCards := flashcardProgress.filter (fun f => 0 < f.repetitions)
  let successfulCards := (reviewedCards.filter (fun f => 1 ≤ f.repetitions)).length
  if 0 < reviewedCards.length then
    jsRound (((successfulCards : ℚ) / (reviewedCards.length : ℚ)) * 100)
  else 0

/-- One scheduler operation, with the timestamp at which it runs: the two
no-op-checking initialization entry points, the lesson bulk initializer, and
a rating. -/
inductive SchedulerOp where
  | initLocal : List String → ℤ → SchedulerOp
  | ensure : List String → ℤ → SchedulerOp
  | initLesson : List String → ℤ → SchedulerOp
  | rate : String → ℤ → ℤ → SchedulerOp

/-- Apply one scheduler operation to the stored review set. -/
def applyOp (st : Store) : SchedulerOp → Store
  | .initLocal ids now => UnifiedProgressService.initializeFlashcards ids now st
  | .ensure ids now => FlashcardService.ensureFlashcardsExist ids now st
  | .initLesson ids now => FlashcardService.initializeFlashcardsForLesson ids now st
  | .rate id q now => FlashcardService.updateFlashcard st id q now

/-- Run a sequence of scheduler operations from the empty review set. -/
def runOps (ops : List SchedulerOp) : Store := ops.foldl applyOp []

/-- Every stored state has ease factor at least 1.3. -/
def easeInvariant (st : Store) : Prop :=
  ∀ id s, lookupState id st = some s → (13:ℚ)/10 ≤ s.easeFactor

/-- Scenario A of the spec: a freshly initialized item rated quality 4, first
rating. -/
def scenarioA1 : SM2State := FlashcardService.updateFlashcardState (some (initState 0)) 4 1

/-- Scenario A, second consecutive quality-4 rating. -/
def scenarioA2 : SM2State := FlashcardService.updateFlashcardState (some scenarioA1) 4 2

/-- Scenario A, third consecutive quality-4 rating. -/
def scenarioA3 : SM2State := FlashcardService.updateFlashcardState (some scenarioA2) 4 3

/-- Scenario A, fourth consecutive quality-4 rating. -/
def scenarioA4 : SM2State := FlashcardService.updateFlashcardState (some scenarioA3) 4 4

/-- Scenario B of the spec: repetitions 3, interval 15 days, ease 2.6, rated
quality 1. -/
def scenarioB : SM2State := FlashcardService.updateFlashcardState (some ⟨13/5, 15, 3, 0, 0⟩) 1 0

/-- A sample prior state used to instantiate universally quantified
theorems. -/
def wState : SM2State := ⟨2, 10, 5, 0, 0⟩

/-- A concrete operation sequence used to instantiate the ease-floor
invariant: initialize item a, then rate it with quality 0. -/
def opsW : List SchedulerOp := [.initLocal ["a"] 0, .rate "a" 0 5]

/-- The prior state used to exhibit the clobbering initializer: a well-formed
existing ReviewState with review history. -/
def priorState : SM2State := ⟨13/5, 15, 3, 100, 200⟩

/-- A review state due at millisecond i (next review timestamp i). -/
def dueAt (i : ℤ) : SM2State := ⟨5/2, 0, 0, 0, i⟩

/-- Twenty-one states, all due by time 100. -/
def manyDueStates : List SM2State := (List.range 21).map (fun i => dueAt i)

theorem jsMax_eq_max (a b : ℚ) : jsMax a b = max a b := (max_def a b).symm

theorem jsRound_eq (x : ℚ) : jsRound x = ⌊x + 1/2⌋ := by
  rw [jsRound, Rat.floor_def', Rat.floor_def]

theorem le_jsMax_left (a b : ℚ) : a ≤ jsMax a b := by
  rw [jsMax_eq_max]
  exact le_max_left a b

theorem lookup_upsert_self (id : String) (s : SM2State) (st : Store) :
    lookupState id (upsertState id s st) = some s := by
  induction st with
  | nil => simp [upsertState, lookupState]
  | cons kv rest ih =>
    obtain ⟨k, v⟩ := kv
    by_cases h : k = id
    · simp [upsertState, lookupState, h]
    · simp [upsertState, lookupState, h, ih]

theorem lookup_upsert_of_ne (k id : String) (s : SM2State) (st : Store) (h : k ≠ id) :
    lookupState k (upsertState id s st) = lookupState k st := by
  induction st with
  | nil => simp [upsertState, lookupState, Ne.symm h]
  | cons kv rest ih =>
    obtain ⟨k2, v⟩ := kv
    by_cases h2 : k2 = id
    · subst h2
      have hk : k2 ≠ k := fun hh => h hh.symm
      simp [upsertState, lookupState, hk]
    · by_cases h3 : k2 = k
      · subst h3
        have hk : ¬ k2 = id := h2
        simp [upsertState, lookupState, hk]
      · simp [upsertState, lookupState, h2, h3, ih]

theorem easeFactor_floor (current : Option SM2State) (q now : ℤ) :
    (13:ℚ)/10 ≤ (FlashcardService.updateFlashcardState current q now).easeFactor := by
  simp only [FlashcardService.updateFlashcardState]
  split
  · exact le_jsMax_left _ _
  · exact le_jsMax_left _ _

theorem initState_ease (now : ℤ) : (13:ℚ)/10 ≤ (initState now).easeFactor := by
  norm_num [initState]

theorem easeInvariant_upsert {st : Store} (h : easeInvariant st) {s : SM2State}
    (hs : (13:ℚ)/10 ≤ s.easeFactor) (id : String) : easeInvariant (upsertState id s st) := by
  intro k t hk
  by_cases hki : k = id
  · subst hki
    rw [lookup_upsert_self] at hk
    cases hk
    exact hs
  · rw [lookup_upsert_of_ne _ _ _ _ hki] at hk
    exact h k t hk

theorem lookupState_append (id : String) (st1 st2 : Store) :
    lookupState id (st1 ++ st2) =
      (match lookupState id st1 with
       | some v => some v
       | none => lookupState id st2) := by
  induction st1 with
  | nil => simp [lookupState]
  | cons kv rest ih =>
    obtain ⟨k, v⟩ := kv
    by_cases h : k = id <;> simp [lookupState, h, ih]

theorem lookup_initRows {id : String} {ids : List String} {now : ℤ} {s : SM2State} :
    lookupState id (ids.map (fun i => (i, initState now))) = some s → s = initState now := by
  induction ids with
  | nil => simp [lookupState]
  | cons i rest ih =>
    by_cases h : i = id
    · simp only [List.map_cons, lookupState, h, if_pos rfl]
      intro hs
      cases hs
      rfl
    · simp only [List.map_cons, lookupState, if_neg h]
      exact ih

theorem easeInvariant_initLocal {st : Store} (h : easeInvariant st) (ids : List String)
    (now : ℤ) : easeInvariant (UnifiedProgressService.initializeFlashcards ids now st) := by
  induction ids generalizing st with
  | nil => exact h
  | cons i rest ih =>
    simp only [UnifiedProgressService.initializeFlashcards, List.foldl_cons]
    apply ih
    by_cases hc : (lookupState i st).isSome
    · simpa [hc] using h
    · simp only [hc, if_false]
      exact easeInvariant_upsert h (initState_ease now) i

theorem easeInvariant_ensure {st : Store} (h : easeInvariant st) (ids : List String)
    (now : ℤ) : easeInvariant (FlashcardService.ensureFlashcardsExist ids now st) := by
  intro k t hk
  rw [FlashcardService.ensureFlashcardsExist, lookupState_append] at hk
  rcases heq : lookupState k st with _ | v
  · rw [heq] at hk
    have := lookup_initRows hk
    subst this
    exact initState_ease now
  · rw [heq] at hk
    cases hk
    exact h k t heq

theorem easeInvariant_initLesson {st : Store} (h : easeInvariant st) (ids : List String)
    (now : ℤ) : easeInvariant (FlashcardService.initializeFlashcardsForLesson ids now st) := by
  induction ids generalizing st with
  | nil => exact h
  | cons i rest ih =>
    simp only [FlashcardService.initializeFlashcardsForLesson, List.foldl_cons]
    exact ih (easeInvariant_upsert h (initState_ease now) i)

theorem easeInvariant_applyOp {st : Store} (h : easeInvariant st) (op : SchedulerOp) :
    easeInvariant (applyOp st op) := by
  cases op with
  | initLocal ids now => exact easeInvariant_initLocal h ids now
  | ensure ids now => exact easeInvariant_ensure h ids now
  | initLesson ids now => exact easeInvariant_initLesson h ids now
  | rate id q now => exact easeInvariant_upsert h (easeFactor_floor _ _ _) id

theorem easeInvariant_foldl {st : Store} (h : easeInvariant st) (ops : List SchedulerOp) :
    easeInvariant (ops.foldl applyOp st) := by
  induction ops generalizing st with
  | nil => exact h
  | cons op rest ih => exact ih (easeInvariant_applyOp h op)

theorem mem_insertByNextReview {a s : SM2State} {l : List SM2State} :
    a ∈ FlashcardService.insertByNextReview s l ↔ a = s ∨ a ∈ l := by
  induction l with
  | nil => simp [FlashcardService.insertByNextReview]
  | cons t rest ih =>
    simp only [FlashcardService.insertByNextReview]
    split
    · simp [List.mem_cons]
    · simp only [List.mem_cons, ih]
      tauto

theorem length_insertByNextReview (s : SM2State) (l : List SM2State) :
    (FlashcardService.insertByNextReview s l).length = l.length + 1 := by
  induction l with
  | nil => rfl
  | cons t rest ih =>
    simp only [FlashcardService.insertByNextReview]
    split
    · simp
    · simp [ih]

theorem mem_orderByNextReview {a : SM2State} {l : List SM2State} :
    a ∈ FlashcardService.orderByNextReview l ↔ a ∈ l := by
  induction l with
  | nil => simp [FlashcardService.orderByNextReview]
  | cons t rest ih =>
    simp [FlashcardService.orderByNextReview, mem_insertByNextReview, ih]

theorem length_orderByNextReview (l : List SM2State) :
    (FlashcardService.orderByNextReview l).length = l.length := by
  induction l with
  | nil => rfl
  | cons t rest ih =>
    simp [FlashcardService.orderByNextReview, length_insertByNextReview, ih]

theorem filter_self_aux (p : SM2State → Bool) (l : List SM2State) :
    (l.filter p).filter p = l.filter p := by
  induction l with
  | nil => rfl
  | cons a rest ih =>
    by_cases h : p a = true
    · simp [List.filter_cons, h, ih]
    · have hb : p a = false := by revert h; cases p a <;> simp
      simp [List.filter_cons, hb, ih]

theorem length_filter_not_aux (p : SM2State → Bool) (l : List SM2State) :
    (l.filter p).length + (l.filter (fun a => !(p a))).length = l.length := by
  induction l with
  | nil => rfl
  | cons a rest ih =>
    cases h : p a <;> simp [List.filter_cons, h] <;> omega

/-- C7: the two scheduler copies are behaviorally identical — on the same
prior state, quality and time, the remote-store-backed and the
local-storage-backed updateFlashcard compute the same new easeFactor,
repetitions, intervalDays, lastReviewedAt and nextReviewAt, and the two
store-level operations produce the same store. -/
theorem updateFlashcard_backends_equal :
    ∀ (current : Option SM2State) (quality now : ℤ) (st : Store) (id : String),
      FlashcardService.updateFlashcardState current quality now =
        UnifiedProgressService.updateFlashcardState current quality now ∧
      FlashcardService.updateFlashcard st id quality now =
        UnifiedProgressService.updateFlashcard st id quality now :=
  fun _ _ _ _ _ => ⟨rfl, rfl⟩

/-- C1: rating an existing state with quality at least 3 increments
repetitions by one, and the new interval is 1 day when the new repetitions
count is 1, 6 days when it is 2, and round(previous interval times updated
ease factor) otherwise; a freshly initialized item rated quality 4 four
consecutive times keeps ease factor 2.5 and produces intervals
1, 6, 15, 38. -/
theorem updateFlashcard_pass_ladder :
    (∀ (s : SM2State) (quality now : ℤ), 3 ≤ quality →
      ((FlashcardService.updateFlashcardState (some s) quality now).repetitions =
          s.repetitions + 1 ∧
       (FlashcardService.updateFlashcardState (some s) quality now).intervalDays =
         (if s.repetitions + 1 = 1 then 1
          else if s.repetitions + 1 = 2 then 6
          else jsRound ((s.intervalDays : ℚ) *
            (FlashcardService.updateFlashcardState (some s) quality now).easeFactor)))) ∧
    (scenarioA1.easeFactor = 5/2 ∧ scenarioA1.intervalDays = 1 ∧ scenarioA1.repetitions = 1 ∧
     scenarioA2.easeFactor = 5/2 ∧ scenarioA2.intervalDays = 6 ∧ scenarioA2.repetitions = 2 ∧
     scenarioA3.easeFactor = 5/2 ∧ scenarioA3.intervalDays = 15 ∧ scenarioA3.repetitions = 3 ∧
     scenarioA4.easeFactor = 5/2 ∧ scenarioA4.intervalDays = 38 ∧ scenarioA4.repetitions = 4) := by
  constructor
  · intro s quality now hq
    simp only [FlashcardService.updateFlashcardState, if_neg (not_lt.mpr hq)]
    exact ⟨trivial, trivial⟩
  · exact by decide

/-- Witness for C1 at a concrete prior state and quality 4. -/
theorem updateFlashcard_pass_ladder_witness :
    (3:ℤ) ≤ 4 ∧
    ((FlashcardService.updateFlashcardState (some wState) 4 0).repetitions =
        wState.repetitions + 1 ∧
     (FlashcardService.updateFlashcardState (some wState) 4 0).intervalDays =
       (if wState.repetitions + 1 = 1 then 1
        else if wState.repetitions + 1 = 2 then 6
        else jsRound ((wState.intervalDays : ℚ) *
          (FlashcardService.updateFlashcardState (some wState) 4 0).easeFactor))) :=
  ⟨by decide, updateFlashcard_pass_ladder.1 wState 4 0 (by decide)⟩

/-- C2: rating an existing state with quality below 3 resets repetitions to 0
and the interval to 1 day regardless of the prior history, while the ease
factor is still updated by the SM-2 formula floored at 1.3; the state
(repetitions 3, interval 15, ease 2.6) rated quality 1 yields repetitions 0,
interval 1, ease 2.06. -/
theorem updateFlashcard_fail_reset :
    (∀ (s : SM2State) (quality now : ℤ), quality < 3 → (13:ℚ)/10 ≤ s.easeFactor →
      ((FlashcardService.updateFlashcardState (some s) quality now).repetitions = 0 ∧
       (FlashcardService.updateFlashcardState (some s) quality now).intervalDays = 1 ∧
       (FlashcardService.updateFlashcardState (some s) quality now).easeFactor =
         max ((13:ℚ)/10)
           (s.easeFactor + (1/10 - ((5 : ℚ) - (quality : ℚ)) *
             (2/25 + ((5 : ℚ) - (quality : ℚ)) * (1/50)))))) ∧
    (scenarioB.repetitions = 0 ∧ scenarioB.intervalDays = 1 ∧ scenarioB.easeFactor = 103/50) := by
  constructor
  · intro s quality now hq hef
    have hne : s.easeFactor ≠ 0 := by
      intro h0
      rw [h0] at hef
      norm_num at hef
    simp only [FlashcardService.updateFlashcardState, if_pos hq, if_neg hne]
    exact ⟨trivial, trivial, jsMax_eq_max _ _⟩
  · exact by decide

/-- Witness for C2 at a concrete prior state and quality 1. -/
theorem updateFlashcard_fail_reset_witness :
    ((1:ℤ) < 3 ∧ (13:ℚ)/10 ≤ wState.easeFactor) ∧
    ((FlashcardService.updateFlashcardState (some wState) 1 0).repetitions = 0 ∧
     (FlashcardService.updateFlashcardState (some wState) 1 0).intervalDays = 1 ∧
     (FlashcardService.updateFlashcardState (some wState) 1 0).easeFactor =
       max ((13:ℚ)/10)
         (wState.easeFactor + (1/10 - ((5 : ℚ) - ((1:ℤ) : ℚ)) *
           (2/25 + ((5 : ℚ) - ((1:ℤ) : ℚ)) * (1/50))))) :=
  ⟨⟨by decide, by decide⟩, updateFlashcard_fail_reset.1 wState 1 0 (by decide) (by decide)⟩

/-- C3: for every sequence of initialize and rate operations, with any
integer qualities, every stored ReviewState satisfies easeFactor at least
1.3 — initialization creates states with ease 2.5 and every rating clamps
the updated ease at 1.3 from below. -/
theorem easeFactor_floor_invariant :
    ∀ (ops : List SchedulerOp) (id : String) (s : SM2State),
      lookupState id (runOps ops) = some s → (13:ℚ)/10 ≤ s.easeFactor := by
  intro ops id s hs
  have hempty : easeInvariant [] := by
    intro k t hk
    simp [lookupState] at hk
  exact easeInvariant_foldl hempty ops id s hs

/-- Witness for C3 on a concrete operation sequence. -/
theorem easeFactor_floor_invariant_witness :
    lookupState "a" (runOps opsW) = some (⟨17/10, 1, 0, 5, 86400005⟩ : SM2State) ∧
    (13:ℚ)/10 ≤ (⟨17/10, 1, 0, 5, 86400005⟩ : SM2State).easeFactor :=
  ⟨by decide, easeFactor_floor_invariant opsW "a" _ (by decide)⟩

/-- C4: evaluation at the failing input. Re-initializing an existing item via
ensureFlashcardsExist or via the local initializeFlashcards is a no-op as the
spec says, but initializeFlashcardsForLesson bulk-upserts a fresh default row
for every id with no existence check, overwriting the existing state under
the last-write-wins upsert. -/
theorem initializeFlashcardsForLesson_overwrites :
    lookupState "a"
        (FlashcardService.initializeFlashcardsForLesson ["a"] 999 [("a", priorState)]) =
      some (initState 999) ∧
    initState 999 ≠ priorState ∧
    lookupState "a" (FlashcardService.ensureFlashcardsExist ["a"] 999 [("a", priorState)]) =
      some priorState ∧
    lookupState "a"
        (UnifiedProgressService.initializeFlashcards ["a"] 999 [("a", priorState)]) =
      some priorState := by decide

/-- C5 counterexample: calling rate (updateFlashcard) on an item with no
ReviewState does not fail and does persist a state — on the empty store,
rating item w with quality 4 stores the state computed from the fallback
defaults (ease 2.5, repetitions 0, interval 0). -/
theorem updateFlashcard_uninitialized_counterexample :
    lookupState "w" (FlashcardService.updateFlashcard [] "w" 4 0) =
      some (⟨5/2, 1, 1, 0, 86400000⟩ : SM2State) := by decide

/-- C5 amended: rate on an item with no ReviewState does not fail with
NotInitialized; both backends fall back to the defaults (ease 2.5,
repetitions 0, interval 0), compute the SM-2 update from them — exactly as
if the item had just been initialized — and persist the result. -/
theorem updateFlashcard_uninitialized_defaults :
    ∀ (st : Store) (id : String) (q now : ℤ),
      lookupState id st = none →
      lookupState id (FlashcardService.updateFlashcard st id q now) =
        some (FlashcardService.updateFlashcardState none q now) ∧
      FlashcardService.updateFlashcardState none q now =
        FlashcardService.updateFlashcardState (some (initState now)) q now := by
  intro st id q now h
  constructor
  · rw [FlashcardService.updateFlashcard, h, lookup_upsert_self]
  · simp only [FlashcardService.updateFlashcardState, initState]
    norm_num

/-- Witness for C5 amended on the empty store. -/
theorem updateFlashcard_uninitialized_defaults_witness :
    lookupState "w" ([] : Store) = none ∧
    (lookupState "w" (FlashcardService.updateFlashcard [] "w" 2 7) =
       some (FlashcardService.updateFlashcardState none 2 7) ∧
     FlashcardService.updateFlashcardState none 2 7 =
       FlashcardService.updateFlashcardState (some (initState 7)) 2 7) :=
  ⟨rfl, updateFlashcard_uninitialized_defaults [] "w" 2 7 rfl⟩

/-- C6 counterexample: with 21 due candidates and the default limit of 20,
the due query omits a due item — the returned set is not exactly the set of
candidates with nextReviewAt at most now. -/
theorem getDueFlashcards_limit_counterexample :
    dueAt 20 ∈ manyDueStates ∧ (dueAt 20).nextReviewAt ≤ 100 ∧
    dueAt 20 ∉ FlashcardService.getDueFlashcards manyDueStates 100
      FlashcardService.defaultLimit := by decide

/-- C6 amended: every item the remote due query returns is due; when at most
`limit` candidates are due the query returns exactly the due candidates; an
empty candidate set returns an empty result; and the local backend's due
count counts exactly the states with nextReviewAt at most now. Beyond
`limit` (default 20) due candidates, the remote query truncates. -/
theorem getDueFlashcards_due_subset_exact :
    ∀ (states : List SM2State) (now : ℤ) (limit : ℕ),
      (∀ s ∈ FlashcardService.getDueFlashcards states now limit, s.nextReviewAt ≤ now) ∧
      ((states.filter (fun f => f.nextReviewAt ≤ now)).length ≤ limit →
        ∀ s, s ∈ FlashcardService.getDueFlashcards states now limit ↔
          (s ∈ states ∧ s.nextReviewAt ≤ now)) ∧
      FlashcardService.getDueFlashcards [] now limit = [] ∧
      (UnifiedProgressService.getFlashcardStats states now).due =
        (states.filter (fun f => f.nextReviewAt ≤ now)).length := by
  intro states now limit
  refine ⟨?_, ?_, ?_, rfl⟩
  · intro s hs
    have h1 : s ∈ FlashcardService.orderByNextReview
        (states.filter (fun f => f.nextReviewAt ≤ now)) :=
      List.take_subset _ _ hs
    have h2 := mem_orderByNextReview.mp h1
    exact of_decide_eq_true (List.mem_filter.mp h2).2
  · intro hlen s
    have hts : (FlashcardService.orderByNextReview
          (states.filter (fun f => f.nextReviewAt ≤ now))).take limit =
        FlashcardService.orderByNextReview (states.filter (fun f => f.nextReviewAt ≤ now)) :=
      List.take_of_length_le (by rw [length_orderByNextReview]; exact hlen)
    rw [FlashcardService.getDueFlashcards, hts, mem_orderByNextReview, List.mem_filter]
    simp
  · simp [FlashcardService.getDueFlashcards, FlashcardService.orderByNextReview]

/-- Witness for C6 amended: one due candidate, below the limit. -/
theorem getDueFlashcards_due_subset_exact_witness :
    (([dueAt 0] : List SM2State).filter (fun f => f.nextReviewAt ≤ 5)).length ≤
      FlashcardService.defaultLimit ∧
    (dueAt 0 ∈ FlashcardService.getDueFlashcards [dueAt 0] 5 FlashcardService.defaultLimit ↔
      (dueAt 0 ∈ ([dueAt 0] : List SM2State) ∧ (dueAt 0).nextReviewAt ≤ 5)) :=
  ⟨by decide,
    (getDueFlashcards_due_subset_exact [dueAt 0] 5 FlashcardService.defaultLimit).2.1
      (by decide) (dueAt 0)⟩

/-- C8 counterexample: quality 6 (outside 0..5) is neither rejected nor
clamped: rating a fresh item with quality 6 persists ease 2.66 — a state
different from the one any in-range quality 0..5 would produce. -/
theorem updateFlashcard_out_of_range_counterexample :
    lookupState "a" (FlashcardService.updateFlashcard [("a", initState 0)] "a" 6 0) =
      some (⟨133/50, 1, 1, 0, 86400000⟩ : SM2State) ∧
    FlashcardService.updateFlashcardState (some (initState 0)) 0 0 ≠
      (⟨133/50, 1, 1, 0, 86400000⟩ : SM2State) ∧
    FlashcardService.updateFlashcardState (some (initState 0)) 1 0 ≠
      (⟨133/50, 1, 1, 0, 86400000⟩ : SM2State) ∧
    FlashcardService.updateFlashcardState (some (initState 0)) 2 0 ≠
      (⟨133/50, 1, 1, 0, 86400000⟩ : SM2State) ∧
    FlashcardService.updateFlashcardState (some (initState 0)) 3 0 ≠
      (⟨133/50, 1, 1, 0, 86400000⟩ : SM2State) ∧
    FlashcardService.updateFlashcardState (some (initState 0)) 4 0 ≠
      (⟨133/50, 1, 1, 0, 86400000⟩ : SM2State) ∧
    FlashcardService.updateFlashcardState (some (initState 0)) 5 0 ≠
      (⟨133/50, 1, 1, 0, 86400000⟩ : SM2State) := by decide

/-- C8 amended: rate performs no validation of the quality argument — for
every integer quality, in range or not, the state computed by the SM-2
formula from that quality is persisted; only the 1.3 ease floor still
applies. -/
theorem updateFlashcard_no_quality_validation :
    ∀ (st : Store) (id : String) (q now : ℤ),
      lookupState id (FlashcardService.updateFlashcard st id q now) =
        some (FlashcardService.updateFlashcardState (lookupState id st) q now) ∧
      (13:ℚ)/10 ≤ (FlashcardService.updateFlashcardState (lookupState id st) q now).easeFactor :=
  fun st id q now =>
    ⟨by rw [FlashcardService.updateFlashcard, lookup_upsert_self], easeFactor_floor _ _ _⟩

/-- C9: the accuracy statistic equals the count of states with repetitions at
least 1 divided by the count of states with repetitions above 0, as a rounded
percentage, and equals 0 — without raising — when no state has repetitions
above 0. -/
theorem deckAccuracy_spec :
    ∀ states : List SM2State,
      deckAccuracy states =
        (if (states.filter (fun f => 0 < f.repetitions)).length = 0 then 0
         else jsRound ((((states.filter (fun f => 1 ≤ f.repetitions)).length : ℚ) /
           ((states.filter (fun f => 0 < f.repetitions)).length : ℚ)) * 100)) := by
  intro states
  have hsame : states.filter (fun f => decide (0 < f.repetitions)) =
      states.filter (fun f => decide (1 ≤ f.repetitions)) :=
    List.filter_congr (fun a _ => decide_eq_decide.mpr (by omega))
  have hinner : (states.filter (fun f => decide (0 < f.repetitions))).filter
        (fun f => decide (1 ≤ f.repetitions)) =
      states.filter (fun f => decide (1 ≤ f.repetitions)) := by
    rw [hsame]
    exact filter_self_aux _ _
  simp only [deckAccuracy, hinner]
  by_cases h : (states.filter (fun f => decide (0 < f.repetitions))).length = 0
  · have h1 : ¬ 0 < (states.filter (fun f => decide (0 < f.repetitions))).length := by omega
    rw [if_neg h1, if_pos h]
  · have h1 : 0 < (states.filter (fun f => decide (0 < f.repetitions))).length := by omega
    rw [if_pos h1, if_neg h]

/-- C10: in both backends, the reported new count equals total minus mature,
so new plus mature equals total; a state with repetitions 1 or 2 is counted
as new (new equals the count of states with repetitions below 3), and only
stored states are counted (total is the number of stored states). -/
theorem getFlashcardStats_new_total :
    ∀ (states : List SM2State) (now : ℤ),
      FlashcardService.getFlashcardStats states now =
        UnifiedProgressService.getFlashcardStats states now ∧
      (FlashcardService.getFlashcardStats states now).new +
          (FlashcardService.getFlashcardStats states now).mature =
        (FlashcardService.getFlashcardStats states now).total ∧
      (FlashcardService.getFlashcardStats states now).new =
        (states.filter (fun f => f.repetitions < 3)).length ∧
      (FlashcardService.getFlashcardStats states now).total = states.length := by
  intro states now
  refine ⟨rfl, ?_, ?_, rfl⟩
  · simp only [FlashcardService.getFlashcardStats]
    exact Nat.sub_add_cancel (List.length_filter_le _ _)
  · simp only [FlashcardService.getFlashcardStats]
    have hnot : states.filter (fun f => !(decide (3 ≤ f.repetitions))) =
        states.filter (fun f => decide (f.repetitions < 3)) :=
      List.filter_congr (fun a _ => by rw [← decide_not]; exact decide_eq_decide.mpr (by omega))
    have := length_filter_not_aux (fun f => decide (3 ≤ f.repetitions)) states
    rw [hnot] at this
    omega

end LangCat
